import Mathlib

/-!
Shallow embedding of the hypergraph engine in src/Tools/hypergraph.py.

Python floats are modelled as rationals; every operation the claims touch
(addition, halving, maximum, row sums, clamped reciprocals) is exact on the
inputs considered. Python dicts are modelled as association lists in
insertion order, which is the order the source relies on when it enumerates
a group with enumerate(...keys()) and when it concatenates per-group
matrices. Fallible code returns Except with a typed error mirroring the
assert and raise statements of the source.
-/

/-- Merge operation names accepted by BaseHypergraph._merge_hyperedges
(the assert allows exactly mean, sum and max). -/
inductive MergeOp
  | mean
  | sum
  | max
deriving DecidableEq, Repr

/-- The _func dispatch table of BaseHypergraph._merge_hyperedges:
mean is (x + y) / 2, sum is x + y, max is max(x, y). -/
def mergeFunc : MergeOp → ℚ → ℚ → ℚ
  | .mean, x, y => (x + y) / 2
  | .sum, x, y => x + y
  | .max, x, y => max x y

/-- A stored per-connection weight entry. The source stores a list of
weights (one per member vertex), but _merge_hyperedges overwrites the
single dict key inside its index loop, leaving a bare scalar; both shapes
therefore occur in the raw store and are modelled by this sum type. -/
inductive ConnW
  | vec (ws : List ℚ)
  | scal (w : ℚ)
deriving DecidableEq, Repr

/-- The content dict of one stored hyperedge: optional w_v2e and w_e2v
connection weights plus the scalar edge weight w_e. -/
structure HEContent where
  w_v2e : Option ConnW := none
  w_e2v : Option ConnW := none
  w_e : ℚ
deriving DecidableEq, Repr

/-- A hyperedge code as produced by BaseHypergraph._hyperedge_code:
the pair of the (sorted) v2e vertex tuple and the (sorted) e2v vertex
tuple. -/
abbrev HCode := List ℕ × List ℕ

/-- One hyperedge group: the insertion-ordered mapping from hyperedge code
to hyperedge content. -/
abbrev HGroup := List (HCode × HEContent)

/-- The state of a hypergraph: fixed vertex count, per-vertex weights, the
raw hyperedge groups, and the two caches. Cache entries are tracked by
name only, which is all the cache-invalidation claims need: _clear_cache
empties self.cache and pops the group entry regardless of the stored
matrices. -/
structure HGState where
  num_v : ℕ
  v_weight : List ℚ
  raw_groups : List (String × HGroup)
  cache : List String
  group_cache : List (String × List String)
deriving DecidableEq, Repr

/-- Typed failures standing for the assert / raise statements of the
source. -/
inductive HGErr
  | badNumV
  | idxError
  | lenMismatch
  | unknownGroup
  | badConnLen
  | notHGFile
deriving DecidableEq, Repr

/-- The default hyperedge group name. -/
def mainGroup : String := "main"

/-- First-match association-list lookup (dict access). -/
def lookupA {α β : Type} [DecidableEq α] (k : α) : List (α × β) → Option β
  | [] => none
  | p :: ps => if p.1 = k then some p.2 else lookupA k ps

/-- In-place value update of an association list at a key (dict item
assignment for an existing key: position and the other entries are kept). -/
def updAssoc {α β : Type} [DecidableEq α] (l : List (α × β)) (k : α) (f : β → β) :
    List (α × β) :=
  l.map (fun p => if p.1 = k then (p.1, f p.2) else p)

/-- BaseHypergraph._clear_cache: always reset self.cache to empty; with a
group name pop only that group from self.group_cache, otherwise reset the
whole group cache. -/
def clearCache (s : HGState) (g : Option String) : HGState :=
  match g with
  | none => { s with cache := [], group_cache := [] }
  | some name =>
      { s with cache := [],
               group_cache := s.group_cache.filter (fun p => decide (p.1 ≠ name)) }

/-- Insert into an ascending list (helper for the Python sorted builtin). -/
def insertAsc (x : ℕ) : List ℕ → List ℕ
  | [] => [x]
  | y :: ys => if x ≤ y then x :: y :: ys else y :: insertAsc x ys

/-- Python sorted on a list of vertex indices (stable, ascending). -/
def sortList (xs : List ℕ) : List ℕ := xs.foldr insertAsc []

/-- The index loop of _merge_hyperedges over one connection-weight key:
each iteration overwrites the single dict slot, so the final value is the
merge of the LAST elements (or no value at all for empty lists). Indexing
is modelled with getD; the source only reaches it with equal-length
lists. -/
def mergeLoop (f : ℚ → ℚ → ℚ) (w1 w2 : List ℚ) : Option ℚ :=
  (List.range w1.length).foldl (fun _ i => some (f (w1.getD i 0) (w2.getD i 0))) none

/-- Merge of one optional connection-weight key: the key is produced only
when both inputs carry it. The source reaches this merge only with list
values (a scalar left by an earlier merge would raise TypeError at
len()); that unreached shape is mapped to an absent key here. -/
def mergeConnW (f : ℚ → ℚ → ℚ) : Option ConnW → Option ConnW → Option ConnW
  | some (.vec w1), some (.vec w2) => (mergeLoop f w1 w2).map ConnW.scal
  | _, _ => none

/-- BaseHypergraph._merge_hyperedges: elementwise dispatch through
mergeFunc for w_e, and the (index-loop) merge of the two optional
connection-weight keys. -/
def mergeHyperedges (e1 e2 : HEContent) (op : MergeOp) : HEContent :=
  { w_v2e := mergeConnW (mergeFunc op) e1.w_v2e e2.w_v2e,
    w_e2v := mergeConnW (mergeFunc op) e1.w_e2v e2.w_e2v,
    w_e := mergeFunc op e1.w_e e2.w_e }

/-- The body of BaseHypergraph._add_hyperedge for an existing group: store
the content under the code, merging with the previous content on
collision. -/
def groupAdd (g : HGroup) (code : HCode) (content : HEContent) (op : MergeOp) : HGroup :=
  match lookupA code g with
  | none => g ++ [(code, content)]
  | some old => updAssoc g code (fun _ => mergeHyperedges old content op)

/-- BaseHypergraph._add_hyperedge: create the group if missing, else
insert/merge into it. -/
def addHyperedge (s : HGState) (code : HCode) (content : HEContent) (op : MergeOp)
    (g : String) : HGState :=
  match lookupA g s.raw_groups with
  | none => { s with raw_groups := s.raw_groups ++ [(g, [(code, content)])] }
  | some _ =>
      { s with raw_groups := updAssoc s.raw_groups g (fun grp => groupAdd grp code content op) }

/-- Hypergraph(num_v) with no edge list: the constructor asserts that
num_v is a positive integer, clears the raw store and the caches, and
initialises the vertex weights to 1.0. -/
def hgInit (num_v : ℤ) : Except HGErr HGState :=
  if 0 < num_v then
    .ok { num_v := num_v.toNat,
          v_weight := List.replicate num_v.toNat 1,
          raw_groups := [], cache := [], group_cache := [] }
  else .error .badNumV

/-- The e_weight argument of Hypergraph.add_hyperedges: None, a scalar, or
a per-edge list (any other type raises TypeError and is not modelled). -/
inductive EWeightArg
  | noneW
  | scalar (w : ℚ)
  | listW (ws : List ℚ)
deriving DecidableEq, Repr

/-- Normalisation of e_weight inside Hypergraph.add_hyperedges: None
becomes 1.0 per formatted hyperedge, and a scalar is wrapped into a
ONE-element list (it is not broadcast to all edges). -/
def normEW (n : ℕ) : EWeightArg → List ℚ
  | .noneW => List.replicate n 1
  | .scalar w => [w]
  | .listW ws => ws

/-- Hypergraph.add_hyperedges (the undirected variant): format the edge
list by sorting each edge (an empty list would hit e_list[0] and raise
IndexError), normalise e_weight, assert the two lengths agree, store each
edge under the code (sorted, sorted) with content containing only w_e,
then clear the group cache and the global cache. Vertex indices are NOT
range-checked anywhere on this path. -/
def hgAddHyperedges (s : HGState) (e_list : List (List ℕ)) (e_weight : EWeightArg)
    (op : MergeOp) (g : String) : Except HGErr HGState :=
  if e_list = [] then .error .idxError
  else if (e_list.map sortList).length = (normEW (e_list.map sortList).length e_weight).length then
    .ok (clearCache
      (((e_list.map sortList).zip (normEW (e_list.map sortList).length e_weight)).foldl
        (fun t p => addHyperedge t (p.1, p.1) { w_e := p.2 } op g) s)
      (some g))
  else .error .lenMismatch

/-- Hypergraph(num_v, e_list, e_weight, merge_op): constructor followed by
add_hyperedges into the default main group. -/
def hgNew (num_v : ℤ) (e_list : List (List ℕ)) (e_weight : EWeightArg)
    (op : MergeOp) : Except HGErr HGState :=
  (hgInit num_v).bind (fun s => hgAddHyperedges s e_list e_weight op mainGroup)

/-- Insert into a vertex/weight pair list kept ascending by vertex
(helper for the argsort-based sorting in _format_e_list_and_w_on_them). -/
def insertPairAsc (x : ℕ × ℚ) : List (ℕ × ℚ) → List (ℕ × ℚ)
  | [] => [x]
  | y :: ys => if x.1 ≤ y.1 then x :: y :: ys else y :: insertPairAsc x ys

/-- Sort connection pairs by vertex index, carrying the weights along
(np.argsort applied to the edge, then used to reorder edge and weights). -/
def sortPairs (ps : List (ℕ × ℚ)) : List (ℕ × ℚ) := ps.foldr insertPairAsc []

/-- BaseHypergraph._format_e_list_and_w_on_them on the nested-list shape:
default the weights to 1 per connection, assert the outer lengths agree
and each weight list has the size of its hyperedge, then sort every edge
and permute its weight list the same way. -/
def formatEW (el : List (List ℕ)) (wl : Option (List (List ℚ))) :
    Except HGErr (List (List ℕ) × List (List ℚ)) :=
  if el.length = ((wl.getD (el.map (fun e => List.replicate e.length 1)))).length then
    if (el.zip (wl.getD (el.map (fun e => List.replicate e.length 1)))).all
        (fun p => decide (p.1.length = p.2.length)) then
      .ok (((el.zip (wl.getD (el.map (fun e => List.replicate e.length 1)))).map
        (fun p => ((sortPairs (p.1.zip p.2)).map Prod.fst,
                   (sortPairs (p.1.zip p.2)).map Prod.snd))).unzip)
    else .error .badConnLen
  else .error .badConnLen

/-- BaseHypergraph.add_hyperedges (the directional variant): format both
edge lists with their connection weights, default e_weight to 1.0 per
edge, assert the lengths agree, then store each hyperedge with content
carrying w_v2e, w_e2v and w_e, and clear the caches. -/
def baseAddHyperedges (s : HGState) (ev ee : List (List ℕ))
    (wv we : Option (List (List ℚ))) (ew : Option (List ℚ)) (op : MergeOp)
    (g : String) : Except HGErr HGState :=
  match formatEW ev wv, formatEW ee we with
  | .error e, _ => .error e
  | .ok _, .error e => .error e
  | .ok (ev2, wv2), .ok (ee2, we2) =>
    if ev2.length = (ew.getD (List.replicate ev2.length 1)).length then
      if ev2.length = ee2.length then
        .ok (clearCache
          ((List.range ev2.length).foldl
            (fun t i => addHyperedge t (ev2.getD i [], ee2.getD i [])
              { w_v2e := some (.vec (wv2.getD i [])),
                w_e2v := some (.vec (we2.getD i [])),
                w_e := (ew.getD (List.replicate ev2.length 1)).getD i 1 } op g) s)
          (some g))
      else .error .lenMismatch
    else .error .lenMismatch

/-- Drop every entry of a group whose code appears in the list (dict.pop
with a default: a missing code is skipped silently). -/
def removeCodes (g : HGroup) (codes : List HCode) : HGroup :=
  codes.foldl (fun gr c => gr.filter (fun q => decide (q.1 ≠ c))) g

/-- BaseHypergraph.remove_hyperedges. The first assert checks that
group_name is among the existing group names, so the call with
group_name=None ALWAYS fails there (None is never a group name), making
the remove-from-all-groups branch below it unreachable; the branch is kept
as in the source. -/
def removeHyperedges (s : HGState) (ev ee : List (List ℕ)) (g : Option String) :
    Except HGErr HGState :=
  if (match g with
      | none => false
      | some n => (lookupA n s.raw_groups).isSome) = true then
    if ev.length = ee.length then
      match g with
      | none =>
          .ok (clearCache
            { s with raw_groups := s.raw_groups.map (fun p =>
                (p.1, removeCodes p.2 ((ev.map sortList).zip (ee.map sortList)))) }
            none)
      | some n =>
          .ok (clearCache
            { s with raw_groups := s.raw_groups.map (fun p =>
                if p.1 = n
                then (p.1, removeCodes p.2 ((ev.map sortList).zip (ee.map sortList)))
                else p) }
            (some n))
    else .error .lenMismatch
  else .error .unknownGroup

/-- The BaseHypergraph v_weight setter: assert the new vector has length
num_v, store it, and clear every cache. -/
def setVWeight (s : HGState) (w : List ℚ) : Except HGErr HGState :=
  if w.length = s.num_v then .ok (clearCache { s with v_weight := w } none)
  else .error .lenMismatch

/-- The on-disk record written by Hypergraph.save: the class tag plus the
state dict (num_v and the raw groups). File placement asserts are I/O and
not modelled. -/
structure SavedData where
  cls : String
  num_v : ℕ
  raw_groups : List (String × HGroup)
deriving DecidableEq, Repr

/-- The class tag used by save and checked by load. -/
def hgClassTag : String := "Hypergraph"

/-- Hypergraph.save: pickle the class tag and the state dict. -/
def hgSave (s : HGState) : SavedData :=
  { cls := hgClassTag, num_v := s.num_v, raw_groups := s.raw_groups }

/-- Hypergraph.from_state_dict: a fresh Hypergraph(num_v) whose raw groups
are replaced by the deep-copied stored groups; both caches start empty. -/
def fromStateDict (n : ℕ) (raw : List (String × HGroup)) : Except HGErr HGState :=
  (hgInit (n : ℤ)).map (fun t => { t with raw_groups := raw })

/-- Hypergraph.load: check the class tag, then rebuild through
from_state_dict. -/
def hgLoad (d : SavedData) : Except HGErr HGState :=
  if d.cls = hgClassTag then fromStateDict d.num_v d.raw_groups
  else .error .notHGFile

/-- The group stored under a name (empty when the name is absent). -/
def groupOf (s : HGState) (g : String) : HGroup := (lookupA g s.raw_groups).getD []

/-- All stored hyperedge entries in global order: per-group incidence and
weight data are concatenated along the hyperedge axis in group_names
(insertion) order, so the global hyperedge index enumerates the groups one
after the other. -/
def allEntries (s : HGState) : List (HCode × HEContent) :=
  (s.raw_groups.map Prod.snd).flatten

/-- num_e: the sum of the group sizes. -/
def numE (s : HGState) : ℕ := (allEntries s).length

/-- Entry (v, e) of the global incidence matrix H built by
_fetch_H_of_group and concatenation: ones at the member vertices of the
v2e tuple of hyperedge e, summed by coalesce when a vertex repeats. -/
def hMat (s : HGState) (v e : ℕ) : ℚ :=
  match (allEntries s).get? e with
  | some p => (p.1.1.count v : ℚ)
  | none => 0

/-- Entry (v, e) of one group's incidence matrix. -/
def hGroupEntry (g : HGroup) (v e : ℕ) : ℚ :=
  match g.get? e with
  | some p => (p.1.1.count v : ℚ)
  | none => 0

/-- _fetch_W_of_group: the w_e values of a group in insertion order. -/
def wEOfGroup (g : HGroup) : List ℚ := g.map (fun p => p.2.w_e)

/-- Diagonal of D_e of one group: row sums of the transposed incidence
matrix (unweighted membership count per hyperedge). -/
def dEOfGroup (num_v : ℕ) (g : HGroup) : List ℚ :=
  (List.range g.length).map (fun e =>
    ((List.range num_v).map (fun v => hGroupEntry g v e)).sum)

/-- Diagonal of D_v of one group: row sums of the incidence matrix after
scaling each column by that hyperedge's w_e. -/
def dVOfGroup (num_v : ℕ) (g : HGroup) : List ℚ :=
  (List.range num_v).map (fun v =>
    ((List.range g.length).map (fun e => (wEOfGroup g).getD e 0 * hGroupEntry g v e)).sum)

/-- Global D_v diagonal: the per-group vertex-degree vectors stacked and
summed elementwise. -/
def dV (s : HGState) : List ℚ :=
  (List.range s.num_v).map (fun v =>
    (s.raw_groups.map (fun p => (dVOfGroup s.num_v p.2).getD v 0)).sum)

/-- Global D_e diagonal: the per-group hyperedge-degree vectors
concatenated. -/
def dE (s : HGState) : List ℚ :=
  (s.raw_groups.map (fun p => dEOfGroup s.num_v p.2)).flatten

/-- Global W_e diagonal: the per-group w_e vectors concatenated. -/
def wE (s : HGState) : List ℚ :=
  (s.raw_groups.map (fun p => wEOfGroup p.2)).flatten

/-- The elementwise pattern behind D_v_neg_1, D_v_neg_1_2 and D_e_neg_1:
apply the power map, then set the entries where it is infinite to 0. On
the nonnegative degree values the power is infinite exactly at 0, so the
combined map sends 0 to 0 and applies the power elsewhere. -/
def clampZeroDeg (f : ℚ → ℚ) (x : ℚ) : ℚ := if x = 0 then 0 else f x

/-- Diagonal of D_v_neg_1: clamped elementwise reciprocal of D_v. -/
def dVNeg1Vals (s : HGState) : List ℚ := (dV s).map (clampZeroDeg (fun x => x⁻¹))

/-- Diagonal of D_v_neg_1_2: the power x ** -0.5 is irrational in general,
so the nonzero branch is kept as a parameter f; the clamp at degree 0 is
the part the safety claim is about. -/
def dVNeg12Vals (f : ℚ → ℚ) (s : HGState) : List ℚ := (dV s).map (clampZeroDeg f)

/-- Diagonal of D_e_neg_1: clamped elementwise reciprocal of D_e. -/
def dENeg1Vals (s : HGState) : List ℚ := (dE s).map (clampZeroDeg (fun x => x⁻¹))

/-- Column count of a dense feature matrix. -/
def nCols (X : List (List ℚ)) : ℕ := (X.getD 0 []).length

/-- v2e_aggregation with aggr=sum and default weights: H_T times X. -/
def v2eAggrSum (s : HGState) (X : List (List ℚ)) : List (List ℚ) :=
  (List.range (numE s)).map (fun e =>
    (List.range (nCols X)).map (fun j =>
      ((List.range s.num_v).map (fun v => hMat s v e * (X.getD v []).getD j 0)).sum))

/-- v2e_update with e_weight=None: W_e times the hyperedge features. -/
def v2eUpdateNone (s : HGState) (Y : List (List ℚ)) : List (List ℚ) :=
  (List.range Y.length).map (fun e => (Y.getD e []).map (fun x => (wE s).getD e 0 * x))

/-- v2e with aggr=sum: aggregation followed by the weight update. -/
def v2eSum (s : HGState) (X : List (List ℚ)) : List (List ℚ) :=
  v2eUpdateNone s (v2eAggrSum s X)

/-- The coalesced vertex-hyperedge incidence positions, in the coalesced
order of H (vertex-major, then hyperedge): H_T keeps exactly these value
positions, so an explicit v2e_weight/e2v_weight vector is aligned with
this list. -/
def v2eIncidences (s : HGState) : List (ℕ × ℕ) :=
  ((List.range s.num_v).map (fun v =>
    (List.range (numE s)).filterMap (fun e =>
      if hMat s v e ≠ 0 then some (v, e) else none))).flatten

/-- Entry (e, v) of the propagation matrix P rebuilt from the incidence
sparsity pattern with a caller-supplied weight vector substituted
(duplicate positions would be summed by the multiply). -/
def pEntry (s : HGState) (w : List ℚ) (e v : ℕ) : ℚ :=
  (((v2eIncidences s).zip w).map (fun q =>
    if q.1.1 = v ∧ q.1.2 = e then q.2 else 0)).sum

/-- Row sum of P over the vertices, the quantity the source stores in the
variable D_e_neg_1 on the explicit-weight mean path. -/
def rowSumPv2e (s : HGState) (w : List ℚ) (e : ℕ) : ℚ :=
  ((List.range s.num_v).map (fun v => pEntry s w e v)).sum

/-- Row sum of P over the hyperedges, the quantity the source stores in
the variable D_v_neg_1 on the explicit-weight mean path of
e2v_aggregation. -/
def rowSumPe2v (s : HGState) (w : List ℚ) (v : ℕ) : ℚ :=
  ((List.range (numE s)).map (fun e => pEntry s w e v)).sum

/-- v2e_aggregation with aggr=mean, an explicit v2e_weight and
drop_rate=0, exactly as the source computes it: after X = P X the row is
multiplied by the variable D_e_neg_1, which holds the PLAIN row sum of P
(no reciprocal is taken before the isinf clamp, and a finite sum is never
infinite, so the clamp never fires). -/
def v2eAggrMeanWeighted (s : HGState) (X : List (List ℚ)) (w : List ℚ) :
    Except HGErr (List (List ℚ)) :=
  if w.length = (v2eIncidences s).length then
    .ok ((List.range (numE s)).map (fun e =>
      (List.range (nCols X)).map (fun j =>
        rowSumPv2e s w e *
          ((List.range s.num_v).map (fun v => pEntry s w e v * (X.getD v []).getD j 0)).sum)))
  else .error .lenMismatch

/-- Modelled from the spec, for comparison with v2eAggrMeanWeighted: each
row of P X rescaled by the INVERSE of the row sum of P, with a zero row
sum giving the zero row. -/
def v2eAggrMeanWeightedSpec (s : HGState) (X : List (List ℚ)) (w : List ℚ) :
    Except HGErr (List (List ℚ)) :=
  if w.length = (v2eIncidences s).length then
    .ok ((List.range (numE s)).map (fun e =>
      (List.range (nCols X)).map (fun j =>
        clampZeroDeg (fun x => x⁻¹) (rowSumPv2e s w e) *
          ((List.range s.num_v).map (fun v => pEntry s w e v * (X.getD v []).getD j 0)).sum)))
  else .error .lenMismatch

/-- e2v_aggregation with aggr=mean, an explicit e2v_weight and
drop_rate=0, exactly as the source computes it: P has the sparsity
pattern of H, and the row is multiplied by the variable D_v_neg_1, which
again holds the plain row sum of P. -/
def e2vAggrMeanWeighted (s : HGState) (X : List (List ℚ)) (w : List ℚ) :
    Except HGErr (List (List ℚ)) :=
  if w.length = (v2eIncidences s).length then
    .ok ((List.range s.num_v).map (fun v =>
      (List.range (nCols X)).map (fun j =>
        rowSumPe2v s w v *
          ((List.range (numE s)).map (fun e => pEntry s w e v * (X.getD e []).getD j 0)).sum)))
  else .error .lenMismatch

/-- Modelled from the spec, for comparison with e2vAggrMeanWeighted: each
row of P X rescaled by the inverse row sum of P. -/
def e2vAggrMeanWeightedSpec (s : HGState) (X : List (List ℚ)) (w : List ℚ) :
    Except HGErr (List (List ℚ)) :=
  if w.length = (v2eIncidences s).length then
    .ok ((List.range s.num_v).map (fun v =>
      (List.range (nCols X)).map (fun j =>
        clampZeroDeg (fun x => x⁻¹) (rowSumPe2v s w v) *
          ((List.range (numE s)).map (fun e => pEntry s w e v * (X.getD e []).getD j 0)).sum)))
  else .error .lenMismatch

/-- Entry (v, j) of e2v_aggregation with aggr=mean and default weights:
X = H X followed by X = D_v_neg_1 X, so the row is scaled by the clamped
reciprocal of the structural vertex degree. -/
def e2vAggrMeanEntry (s : HGState) (X : List (List ℚ)) (v j : ℕ) : ℚ :=
  clampZeroDeg (fun x => x⁻¹) ((dV s).getD v 0) *
    ((List.range (numE s)).map (fun e => hMat s v e * (X.getD e []).getD j 0)).sum

def hgC6 : HGState :=
  { num_v := 4, v_weight := [1, 1, 1, 1],
    raw_groups := [(mainGroup,
      [(([0, 1, 2], [0, 1, 2]), { w_e := 1 }),
       (([1, 2, 3], [1, 2, 3]), { w_e := 2 })])],
    cache := [], group_cache := [] }


def hgC1 : HGState :=
  { num_v := 2, v_weight := [1, 1],
    raw_groups := [(mainGroup, [(([0, 1], [0, 1]), { w_e := 1 })])],
    cache := [], group_cache := [] }

theorem lookupA_append {α β : Type} [DecidableEq α] (k : α) (l1 l2 : List (α × β)) :
    lookupA k (l1 ++ l2) =
      (match lookupA k l1 with
       | some v => some v
       | none => lookupA k l2) := by
  induction l1 with
  | nil => simp [lookupA]
  | cons p ps ih =>
      by_cases h : p.1 = k
      · simp [lookupA, h]
      · simp [lookupA, h, ih]

theorem lookupA_updAssoc_self {α β : Type} [DecidableEq α] (l : List (α × β)) (k : α)
    (f : β → β) :
    lookupA k (updAssoc l k f) = (lookupA k l).map f := by
  induction l with
  | nil => simp [lookupA, updAssoc]
  | cons p ps ih =>
      by_cases h : p.1 = k
      · simp [updAssoc, List.map_cons, lookupA, h]
      · simpa [updAssoc, List.map_cons, lookupA, h] using ih

theorem length_updAssoc {α β : Type} [DecidableEq α] (l : List (α × β)) (k : α)
    (f : β → β) : (updAssoc l k f).length = l.length := by
  simp [updAssoc]

theorem countP_updAssoc {α β : Type} [DecidableEq α] (l : List (α × β)) (k c : α)
    (f : β → β) :
    (updAssoc l k f).countP (fun p => decide (p.1 = c)) =
      l.countP (fun p => decide (p.1 = c)) := by
  induction l with
  | nil => simp [updAssoc]
  | cons p ps ih =>
      by_cases h : p.1 = k
      · simp [updAssoc, List.map_cons, List.countP_cons, h] at ih ⊢
        omega
      · simpa [updAssoc, List.map_cons, List.countP_cons, h] using ih

theorem lookupA_none_countP {α β : Type} [DecidableEq α] (l : List (α × β)) (c : α)
    (h : lookupA c l = none) : l.countP (fun p => decide (p.1 = c)) = 0 := by
  induction l with
  | nil => simp
  | cons p ps ih =>
      by_cases h1 : p.1 = c
      · simp [lookupA, h1] at h
      · simp [lookupA, h1] at h
        simp [List.countP_cons, h1, ih h]

theorem lookupA_filter_ne {α β : Type} [DecidableEq α] (l : List (α × β)) (k : α) :
    lookupA k (l.filter (fun p => decide (p.1 ≠ k))) = none := by
  induction l with
  | nil => rfl
  | cons p ps ih =>
      by_cases h : p.1 = k
      · simpa [List.filter_cons, h] using ih
      · simpa [List.filter_cons, h, lookupA] using ih

theorem getD_map_clamp (f : ℚ → ℚ) (l : List ℚ) (i : ℕ) :
    (l.map (clampZeroDeg f)).getD i 0 = clampZeroDeg f (l.getD i 0) := by
  induction l generalizing i with
  | nil => simp [clampZeroDeg]
  | cons x xs ih =>
      cases i with
      | zero => simp
      | succ n => simpa using ih n

/-- Claim C6: for the hypergraph with num_v=4 and one main group holding
edges (0,1,2) with w_e=1.0 and (1,2,3) with w_e=2.0, the diagonal of D_e
is (3,3), the diagonal of D_v is (1,3,3,2), and v2e with aggr=sum on
X = [[1,0],[0,1],[1,1],[2,0]] returns [[2,2],[6,4]]. -/
theorem c6_concrete_scenario :
    hgNew 4 [[0, 1, 2], [1, 2, 3]] (.listW [1, 2]) .mean = .ok hgC6 ∧
    dE hgC6 = [3, 3] ∧
    dV hgC6 = [1, 3, 3, 2] ∧
    v2eSum hgC6 [[1, 0], [0, 1], [1, 1], [2, 0]] = [[2, 2], [6, 4]] := by
  refine ⟨rfl, ?_, ?_, ?_⟩
  · norm_num [dE, dEOfGroup, hGroupEntry, hgC6, List.range_succ]
  · norm_num [dV, dVOfGroup, hGroupEntry, wEOfGroup, hgC6, List.range_succ]
  · norm_num [v2eSum, v2eUpdateNone, v2eAggrSum, hMat, allEntries, numE, nCols, wE,
      wEOfGroup, hgC6, List.range_succ]

/-- Claim C1 (refuting evaluation): on the hypergraph with num_v=2 and the
single edge (0,1), mean aggregation with the explicit weight vector [1,1]
on X = [[1],[1]] returns [[4]] (each row of P X is multiplied by the PLAIN
row sum of P, the reciprocal being absent from the source), while the
spec's inverse-row-sum mean gives [[1]]; the e2v direction with weights
[2,3] on X = [[2]] likewise returns [[8],[18]] instead of the spec's
[[2],[2]]. -/
theorem c1_mean_uses_row_sum_not_inverse :
    hgNew 2 [[0, 1]] .noneW .mean = .ok hgC1 ∧
    v2eAggrMeanWeighted hgC1 [[1], [1]] [1, 1] = .ok [[4]] ∧
    v2eAggrMeanWeightedSpec hgC1 [[1], [1]] [1, 1] = .ok [[1]] ∧
    e2vAggrMeanWeighted hgC1 [[2]] [2, 3] = .ok [[8], [18]] ∧
    e2vAggrMeanWeightedSpec hgC1 [[2]] [2, 3] = .ok [[2], [2]] := by
  refine ⟨rfl, ?_, ?_, ?_, ?_⟩
  · norm_num [v2eAggrMeanWeighted, rowSumPv2e, pEntry, v2eIncidences, hMat, allEntries,
      numE, nCols, hgC1, List.range_succ, List.filterMap_cons]
  · norm_num [v2eAggrMeanWeightedSpec, rowSumPv2e, pEntry, v2eIncidences, hMat, allEntries,
      numE, nCols, clampZeroDeg, hgC1, List.range_succ, List.filterMap_cons]
  · norm_num [e2vAggrMeanWeighted, rowSumPe2v, pEntry, v2eIncidences, hMat, allEntries,
      numE, nCols, hgC1, List.range_succ, List.filterMap_cons]
  · norm_num [e2vAggrMeanWeightedSpec, rowSumPe2v, pEntry, v2eIncidences, hMat, allEntries,
      numE, nCols, clampZeroDeg, hgC1, List.range_succ, List.filterMap_cons]

/-- Claim C2 (refuting evaluation): adding the hyperedge (0,1) with
connection weights [1,2] and again with [3,4] under merge_op=mean leaves
an entry whose w_v2e and w_e2v are the bare SCALAR 3 (the mean of the two
last elements, the dict key being overwritten on every loop iteration),
not the elementwise vector [2,3]. -/
theorem c2_merge_stores_scalar :
    ∃ s1 s2,
      baseAddHyperedges { num_v := 4, v_weight := [1, 1, 1, 1], raw_groups := [],
                          cache := [], group_cache := [] }
        [[0, 1]] [[0, 1]] (some [[1, 2]]) (some [[1, 2]]) (some [1]) .mean mainGroup = .ok s1 ∧
      baseAddHyperedges s1
        [[0, 1]] [[0, 1]] (some [[3, 4]]) (some [[3, 4]]) (some [1]) .mean mainGroup = .ok s2 ∧
      lookupA (([0, 1], [0, 1]) : HCode) (groupOf s2 mainGroup) =
        some { w_v2e := some (.scal 3), w_e2v := some (.scal 3), w_e := 1 } := by
  refine ⟨_, _, rfl, rfl, ?_⟩
  norm_num [groupOf, lookupA, baseAddHyperedges, formatEW, sortPairs, insertPairAsc,
    addHyperedge, groupAdd, updAssoc, mergeHyperedges, mergeConnW, mergeLoop, mergeFunc,
    clearCache, List.range_succ]

/-- Claim C3 (refuting evaluation): calling remove_hyperedges without a
group name fails at the membership assert (None is never among the group
names) instead of removing the code from every group. -/
theorem c3_remove_without_group_fails :
    hgNew 2 [[0, 1]] .noneW .mean = .ok hgC1 ∧
    removeHyperedges hgC1 [[0, 1]] [[0, 1]] none = .error .unknownGroup :=
  ⟨rfl, rfl⟩

/-- Claim C4 (refuting evaluation): adding an edge containing vertex index
5 to a freshly constructed 4-vertex hypergraph succeeds and stores the
edge; no vertex-range check runs anywhere on the add_hyperedges path. -/
theorem c4_out_of_range_add_succeeds :
    ∃ s0 s1, hgInit 4 = .ok s0 ∧
      hgAddHyperedges s0 [[0, 5]] .noneW .mean mainGroup = .ok s1 ∧
      groupOf s1 mainGroup = [(([0, 5], [0, 5]), { w_e := 1 })] :=
  ⟨_, _, rfl, rfl, rfl⟩

/-- Claim C4 (amended): constructing with a non-positive vertex count
fails, but add_hyperedges never checks vertex indices against num_v: with
default weights it succeeds on every non-empty edge list, storing
out-of-range indices as given. -/
theorem c4_construction_check_only (n : ℤ) (hn : n ≤ 0) (s : HGState)
    (el : List (List ℕ)) (op : MergeOp) (g : String) (hel : el ≠ []) :
    hgInit n = .error .badNumV ∧
    ∃ t, hgAddHyperedges s el .noneW op g = .ok t := by
  constructor
  · unfold hgInit
    rw [if_neg (by omega)]
  · unfold hgAddHyperedges
    rw [if_neg hel, if_pos (by simp [normEW])]
    exact ⟨_, rfl⟩

theorem c4_construction_check_only_witness :
    hgInit 0 = .error .badNumV ∧
    ∃ t, hgAddHyperedges hgC1 [[0, 9]] .noneW .mean mainGroup = .ok t :=
  c4_construction_check_only 0 (by decide) hgC1 [[0, 9]] .mean mainGroup (by decide)

/-- Claim C5: each mutating operation (Hypergraph.add_hyperedges on a
group, remove_hyperedges on a group, and the v_weight setter) returns with
the structure-wide cache emptied and the touched group evicted from the
per-group cache (the setter resets the whole group cache). -/
theorem c5_mutations_clear_caches (s : HGState) (el : List (List ℕ)) (ew : EWeightArg)
    (op : MergeOp) (g : String) (ev ee : List (List ℕ)) (g2 : String) (w : List ℚ)
    (s1 s2 s3 : HGState)
    (h1 : hgAddHyperedges s el ew op g = .ok s1)
    (h2 : removeHyperedges s ev ee (some g2) = .ok s2)
    (h3 : setVWeight s w = .ok s3) :
    (s1.cache = [] ∧ lookupA g s1.group_cache = none) ∧
    (s2.cache = [] ∧ lookupA g2 s2.group_cache = none) ∧
    (s3.cache = [] ∧ s3.group_cache = []) := by
  refine ⟨?_, ?_, ?_⟩
  · unfold hgAddHyperedges at h1
    split at h1
    · simp at h1
    · split at h1
      · injection h1 with h
        subst h
        exact ⟨rfl, lookupA_filter_ne _ _⟩
      · simp at h1
  · unfold removeHyperedges at h2
    split at h2
    · split at h2
      · dsimp only at h2
        injection h2 with h
        subst h
        exact ⟨rfl, lookupA_filter_ne _ _⟩
      · simp at h2
    · simp at h2
  · unfold setVWeight at h3
    split at h3
    · injection h3 with h
      subst h
      exact ⟨rfl, rfl⟩
    · simp at h3

def cacheH : String := "H"

def hgW5 : HGState :=
  { num_v := 2, v_weight := [1, 1],
    raw_groups := [(mainGroup, [(([0, 1], [0, 1]), { w_e := 1 })])],
    cache := [cacheH], group_cache := [(mainGroup, [cacheH])] }

def hgW5a : HGState :=
  { num_v := 2, v_weight := [1, 1],
    raw_groups := [(mainGroup,
      [(([0, 1], [0, 1]), { w_e := 1 }), (([1], [1]), { w_e := 1 })])],
    cache := [], group_cache := [] }

def hgW5r : HGState :=
  { num_v := 2, v_weight := [1, 1], raw_groups := [(mainGroup, [])],
    cache := [], group_cache := [] }

def hgW5w : HGState :=
  { num_v := 2, v_weight := [2, 2],
    raw_groups := [(mainGroup, [(([0, 1], [0, 1]), { w_e := 1 })])],
    cache := [], group_cache := [] }

theorem c5_mutations_clear_caches_witness :
    (hgW5a.cache = [] ∧ lookupA mainGroup hgW5a.group_cache = none) ∧
    (hgW5r.cache = [] ∧ lookupA mainGroup hgW5r.group_cache = none) ∧
    (hgW5w.cache = [] ∧ hgW5w.group_cache = []) :=
  c5_mutations_clear_caches hgW5 [[1]] .noneW .mean mainGroup [[0, 1]] [[0, 1]] mainGroup
    [2, 2] hgW5a hgW5r hgW5w rfl rfl rfl

/-- The effect of _add_hyperedge on the target group, seen through
groupOf: the group (empty when the name was absent) goes through
groupAdd. -/
theorem groupOf_addHyperedge_self (s : HGState) (c : HCode) (ct : HEContent)
    (op : MergeOp) (g : String) :
    groupOf (addHyperedge s c ct op g) g = groupAdd (groupOf s g) c ct op := by
  cases hg : lookupA g s.raw_groups with
  | none =>
      simp [addHyperedge, groupOf, hg, lookupA_append, lookupA, groupAdd]
  | some grp =>
      simp [addHyperedge, groupOf, hg, lookupA_updAssoc_self]

/-- Claim C7: adding a hyperedge code with weight a and adding the same
code again with weight b to the same group leaves exactly one stored entry
for that code, with weight mergeFunc op a b, without changing the group
size, where the merge of the weights is (a+b)/2, a+b or max a b for the
mean, sum and max operations. -/
theorem c7_add_twice_merges (s : HGState) (g : String) (c : HCode) (a b : ℚ)
    (op : MergeOp) (habsent : lookupA c (groupOf s g) = none) :
    lookupA c (groupOf (addHyperedge (addHyperedge s c { w_e := a } op g) c
        { w_e := b } op g) g) = some { w_e := mergeFunc op a b } ∧
    (groupOf (addHyperedge (addHyperedge s c { w_e := a } op g) c
        { w_e := b } op g) g).countP (fun p => decide (p.1 = c)) = 1 ∧
    (groupOf (addHyperedge (addHyperedge s c { w_e := a } op g) c
        { w_e := b } op g) g).length
      = (groupOf (addHyperedge s c { w_e := a } op g) g).length ∧
    mergeFunc .mean a b = (a + b) / 2 ∧
    mergeFunc .sum a b = a + b ∧
    mergeFunc .max a b = max a b := by
  have e1 : groupOf (addHyperedge s c { w_e := a } op g) g
      = groupOf s g ++ [(c, { w_e := a })] := by
    rw [groupOf_addHyperedge_self, groupAdd, habsent]
  have hlc : lookupA c (groupOf s g ++ [(c, { w_e := a })])
      = some { w_e := a } := by
    simp [lookupA_append, habsent, lookupA]
  have e2 : groupOf (addHyperedge (addHyperedge s c { w_e := a } op g) c
      { w_e := b } op g) g
      = updAssoc (groupOf s g ++ [(c, { w_e := a })]) c
          (fun _ => mergeHyperedges { w_e := a } { w_e := b } op) := by
    rw [groupOf_addHyperedge_self, e1, groupAdd, hlc]
  refine ⟨?_, ?_, ?_, rfl, rfl, rfl⟩
  · rw [e2, lookupA_updAssoc_self, hlc]
    rfl
  · rw [e2, countP_updAssoc, List.countP_append,
      lookupA_none_countP (groupOf s g) c habsent]
    simp [List.countP_cons]
  · rw [e2, length_updAssoc, e1]

theorem c7_add_twice_merges_witness :
    lookupA (([0, 1], [0, 1]) : HCode)
        (groupOf (addHyperedge (addHyperedge hgC6 ([0, 1], [0, 1]) { w_e := 1 } .mean
          mainGroup) ([0, 1], [0, 1]) { w_e := 2 } .mean mainGroup) mainGroup)
      = some { w_e := mergeFunc .mean 1 2 } ∧
    (groupOf (addHyperedge (addHyperedge hgC6 ([0, 1], [0, 1]) { w_e := 1 } .mean
        mainGroup) ([0, 1], [0, 1]) { w_e := 2 } .mean mainGroup) mainGroup).countP
      (fun p => decide (p.1 = (([0, 1], [0, 1]) : HCode))) = 1 ∧
    (groupOf (addHyperedge (addHyperedge hgC6 ([0, 1], [0, 1]) { w_e := 1 } .mean
        mainGroup) ([0, 1], [0, 1]) { w_e := 2 } .mean mainGroup) mainGroup).length
      = (groupOf (addHyperedge hgC6 ([0, 1], [0, 1]) { w_e := 1 } .mean mainGroup)
          mainGroup).length ∧
    mergeFunc .mean 1 2 = (1 + 2) / 2 ∧
    mergeFunc .sum 1 2 = 1 + 2 ∧
    mergeFunc .max 1 2 = max 1 2 :=
  c7_add_twice_merges hgC6 mainGroup ([0, 1], [0, 1]) 1 2 .mean rfl

/-- Claim C8: a zero diagonal entry of D_v, D_e stays exactly 0 in
D_v_neg_1, D_v_neg_1_2 and D_e_neg_1 (the infinite power is clamped to
zero), and a vertex contained in no stored hyperedge gets the all-zero
row from e2v aggregation with aggr=mean and default weights. -/
theorem c8_zero_degree_safety (s : HGState) (f : ℚ → ℚ) (i k v : ℕ) (X : List (List ℚ))
    (hdv : (dV s).getD i 0 = 0) (hde : (dE s).getD k 0 = 0)
    (hv : ∀ p ∈ allEntries s, (p.1).1.count v = 0) :
    (dVNeg1Vals s).getD i 0 = 0 ∧
    (dVNeg12Vals f s).getD i 0 = 0 ∧
    (dENeg1Vals s).getD k 0 = 0 ∧
    (∀ j, e2vAggrMeanEntry s X v j = 0) := by
  have hrow : ∀ e, hMat s v e = 0 := by
    intro e
    unfold hMat
    cases h : (allEntries s).get? e with
    | none => rfl
    | some p => simp [hv p (List.get?_mem h)]
  refine ⟨?_, ?_, ?_, ?_⟩
  · rw [dVNeg1Vals, getD_map_clamp, hdv]
    simp [clampZeroDeg]
  · rw [dVNeg12Vals, getD_map_clamp, hdv]
    simp [clampZeroDeg]
  · rw [dENeg1Vals, getD_map_clamp, hde]
    simp [clampZeroDeg]
  · intro j
    unfold e2vAggrMeanEntry
    have hz : ((List.range (numE s)).map
        (fun e => hMat s v e * (X.getD e []).getD j 0)).sum = 0 := by
      apply List.sum_eq_zero
      intro x hx
      simp only [List.mem_map] at hx
      obtain ⟨e, _, rfl⟩ := hx
      rw [hrow e, zero_mul]
    rw [hz, mul_zero]

def hgW8 : HGState :=
  { num_v := 3, v_weight := [1, 1, 1],
    raw_groups := [(mainGroup,
      [(([0, 1], [0, 1]), { w_e := 1 }), (([], []), { w_e := 1 })])],
    cache := [], group_cache := [] }

theorem c8_zero_degree_safety_witness :
    (dVNeg1Vals hgW8).getD 2 0 = 0 ∧
    (dVNeg12Vals id hgW8).getD 2 0 = 0 ∧
    (dENeg1Vals hgW8).getD 1 0 = 0 ∧
    (∀ j, e2vAggrMeanEntry hgW8 [[5], [7]] 2 j = 0) :=
  c8_zero_degree_safety hgW8 id 2 1 2 [[5], [7]]
    (by norm_num [dV, dVOfGroup, hGroupEntry, wEOfGroup, hgW8, List.range_succ])
    (by norm_num [dE, dEOfGroup, hGroupEntry, hgW8, List.range_succ])
    (by decide)

/-- Claim C9: save followed by load rebuilds a hypergraph with the same
num_v and identical raw groups, and with both caches empty. -/
theorem c9_save_load_roundtrip (s : HGState) (hpos : 0 < s.num_v)
    (_hne : s.raw_groups ≠ []) :
    ∃ t, hgLoad (hgSave s) = .ok t ∧ t.num_v = s.num_v ∧
      t.raw_groups = s.raw_groups ∧ t.cache = [] ∧ t.group_cache = [] := by
  unfold hgLoad hgSave fromStateDict hgInit
  rw [if_pos rfl, if_pos (by exact_mod_cast hpos)]
  exact ⟨_, rfl, by simp, rfl, rfl, rfl⟩

theorem c9_save_load_roundtrip_witness :
    ∃ t, hgLoad (hgSave hgC1) = .ok t ∧ t.num_v = hgC1.num_v ∧
      t.raw_groups = hgC1.raw_groups ∧ t.cache = [] ∧ t.group_cache = [] :=
  c9_save_load_roundtrip hgC1 (by decide) (by decide)

/-- Claim C10: a scalar e_weight passed to Hypergraph.add_hyperedges with
two or more hyperedges is wrapped into a one-element list, so the length
assert fails; with exactly one hyperedge the same scalar succeeds. -/
theorem c10_scalar_weight_not_broadcast (s : HGState) (el : List (List ℕ)) (w : ℚ)
    (op : MergeOp) (g : String) (e : List ℕ) (hn : 2 ≤ el.length) :
    hgAddHyperedges s el (.scalar w) op g = .error .lenMismatch ∧
    ∃ t, hgAddHyperedges s [e] (.scalar w) op g = .ok t := by
  constructor
  · unfold hgAddHyperedges
    rw [if_neg (by rintro rfl; simp at hn), if_neg (by simp [normEW]; omega)]
  · unfold hgAddHyperedges
    rw [if_neg (by simp), if_pos (by simp [normEW])]
    exact ⟨_, rfl⟩

theorem c10_scalar_weight_not_broadcast_witness :
    hgAddHyperedges hgC6 [[0, 1], [1, 2]] (.scalar 5) .mean mainGroup
      = .error .lenMismatch ∧
    ∃ t, hgAddHyperedges hgC6 [[0, 1]] (.scalar 5) .mean mainGroup = .ok t :=
  c10_scalar_weight_not_broadcast hgC6 [[0, 1], [1, 2]] 5 .mean mainGroup [0, 1]
    (by decide)
